import Mathlib

/-!
Verification of the multiple-dispatch method table and call engine of
`src/gf.c` (generic functions: method table, lookup, specialization
cache, ambiguity analysis, call-site inline cache).

The type-system operations (`jl_type_intersection`, `jl_subtype`,
`jl_args_morespecific`, `jl_types_equal`, ...) are consumed by the
dispatch code as primitives from a collaborating module that is not part
of this file's source; we model them as an explicit record of abstract
operations (`TS`) over opaque type codes (`Ty := Nat`).  Every function
below that has a counterpart in `gf.c` is a direct transcription of that
C function over these primitives.
-/

namespace GF

/-- Opaque code for a Julia type value (`jl_value_t*` viewed as a type).
Types are hash-consed in the runtime, so pointer identity is equality of
codes. -/
abbrev Ty := Nat

/-- Code for `jl_bottom_type` (`Union{}`), the empty intersection result. -/
def bottom : Ty := 0

/-- The type-system primitives consumed by `gf.c` (subtype, intersection,
specificity, equality, structural tests), plus the distinguished type
constants the dispatcher compares against.  The dispatch code treats all
of these as opaque collaborators. -/
structure TS where
  /-- `jl_type_intersection`; returns `bottom` when the intersection is empty. -/
  intersect : Ty → Ty → Ty
  /-- `sigs_eq` (type-signature equality; `jl_types_equal` on tuples). -/
  sigs_eq : Ty → Ty → Bool
  /-- `jl_args_morespecific`. -/
  morespecific : Ty → Ty → Bool
  /-- `jl_subtype` (with `ta = 0`). -/
  subtype : Ty → Ty → Bool
  /-- `jl_is_type_type` (`T = Type{X}`). -/
  is_type_type : Ty → Bool
  /-- `jl_is_kind`/`is_kind` (`DataType`, `TypeConstructor`, ...). -/
  is_kind : Ty → Bool
  /-- `jl_is_typevar`. -/
  is_typevar : Ty → Bool
  /-- `jl_is_uniontype`. -/
  is_uniontype : Ty → Bool
  /-- `jl_is_tuple_type`. -/
  is_tuple_type : Ty → Bool
  /-- `jl_is_vararg_type`. -/
  is_vararg_type : Ty → Bool
  /-- `jl_is_leaf_type`. -/
  is_leaf_type : Ty → Bool
  /-- `jl_has_typevars`. -/
  has_typevars : Ty → Bool
  /-- `jl_tparam0` (first type parameter; element type of a `Vararg`). -/
  tparam0 : Ty → Ty
  /-- `jl_typeof` applied to a type value (its kind, e.g. `DataType`). -/
  typeof_t : Ty → Ty
  /-- number of elements of a `jl_svec_t` of union components. -/
  union_len : Ty → Nat
  /-- `jl_svecref` on a type-variable svec (`m->tvars`). -/
  svec_ref : Ty → Nat → Ty
  /-- upper bound of a type variable (`((jl_tvar_t*)t)->ub`). -/
  tvar_ub : Ty → Ty
  /-- `jl_wrap_vararg t NULL` (`Vararg{t}`). -/
  wrap_vararg : Ty → Ty
  /-- `jl_instantiate_type_with` over a flat (tvar, value) environment. -/
  instantiate : Ty → List (Ty × Ty) → Ty
  /-- `jl_apply_tuple_type` on a parameter list. -/
  tuple_of : List Ty → Ty
  /-- code of `jl_any_type`. -/
  any_type : Ty
  /-- code of `jl_function_type`. -/
  function_type : Ty
  /-- code of `jl_datatype_type`. -/
  datatype_type : Ty
  /-- code of `jl_type_type` (`Type`). -/
  type_type : Ty
  /-- code of `jl_typetype_type` (`Type{T}`). -/
  typetype_type : Ty
  /-- code of `jl_anytuple_type_type` (`Type{T<:Tuple}`). -/
  anytuple_type_type : Ty
  /-- code of the `jl_ANY_flag` marker (`::ANY`). -/
  ANY_flag : Ty

/-- A default valuation of the primitives, used to build the concrete
instances appearing in witnesses; every field is overridden as needed. -/
def TS0 : TS where
  intersect := fun _ _ => bottom
  sigs_eq := fun _ _ => false
  morespecific := fun _ _ => false
  subtype := fun _ _ => false
  is_type_type := fun _ => false
  is_kind := fun _ => false
  is_typevar := fun _ => false
  is_uniontype := fun _ => false
  is_tuple_type := fun _ => false
  is_vararg_type := fun _ => false
  is_leaf_type := fun _ => false
  has_typevars := fun _ => false
  tparam0 := fun _ => bottom
  typeof_t := fun _ => bottom
  union_len := fun _ => 0
  svec_ref := fun _ _ => bottom
  tvar_ub := fun _ => bottom
  wrap_vararg := fun t => 1000 + t
  instantiate := fun t _ => t
  tuple_of := fun _ => 0
  any_type := 1
  function_type := 2
  datatype_type := 3
  type_type := 4
  typetype_type := 5
  anytuple_type_type := 6
  ANY_flag := 7

/-! ## Definition-time ambiguity analysis (`check_ambiguous_visitor`) -/

/-- A `defs` typemap entry carrying a `Method` payload: the method's
identity (pointer identity in C, a numeric id here) and its signature. -/
structure MEntry where
  mid : Nat
  sig : Ty
  deriving DecidableEq, Repr

/-- The mutable state threaded through `check_ambiguous_matches`:
the per-method `ambig` arrays (`none` models the `jl_nothing` initial
value, `some l` an allocated array of method ids), the lazily allocated
`shadowed` array, and the `after` flag of `struct ambiguous_matches_env`. -/
structure AmbState where
  ambig : Nat → Option (List Nat)
  shadowed : Option (List Nat)
  after : Bool

/-- `check_ambiguous_visitor` (gf.c:737).  `defs_assoc isect` models the
external `jl_typemap_assoc_by_type(map, isect, NULL, 0, 0, 0) != NULL`
coverage query on the definition map; `isect` is the non-empty
intersection `closure->match.ti` supplied by the intersection visitor. -/
def check_ambiguous_visitor (ts : TS) (defs_assoc : Ty → Bool)
    (newentry old : MEntry) (isect : Ty) (st : AmbState) : AmbState :=
  if old.mid = newentry.mid then { st with after := true }
  else
    let type := newentry.sig
    let sig := old.sig
    if ts.sigs_eq isect (if st.after then sig else type) then st
    else if !(ts.morespecific (if st.after then type else sig)
                              (if st.after then sig else type)) then
      if defs_assoc isect then st
      else
        let ma := (st.ambig newentry.mid).getD []
        let oa := (st.ambig old.mid).getD []
        { st with ambig := fun k =>
            if k = newentry.mid then some (ma ++ [old.mid])
            else if k = old.mid then some (oa ++ [newentry.mid])
            else st.ambig k }
    else if st.after then
      { st with shadowed := some ((st.shadowed.getD []) ++ [old.mid]) }
    else st

/-- `check_ambiguous_matches` (gf.c:802): fold the visitor over the
definition list in order, via `jl_typemap_intersection_visitor`, which
calls the visitor exactly on the entries whose signature has non-empty
intersection with the new signature.  `ambig0` is the pre-existing
per-method ambiguity store. -/
def check_ambiguous_matches (ts : TS) (defs_assoc : Ty → Bool)
    (defs : List MEntry) (newentry : MEntry)
    (ambig0 : Nat → Option (List Nat)) : AmbState :=
  defs.foldl
    (fun st old =>
      let ti := ts.intersect newentry.sig old.sig
      if ti = bottom then st
      else check_ambiguous_visitor ts defs_assoc newentry old ti st)
    ⟨ambig0, none, false⟩

/-- The exact condition under which one visitor step records a pairwise
ambiguity, written over the earlier signature `A` and the later
signature `B` of the pair (`A = type, B = sig` when the old entry comes
after the new one, and conversely). -/
def ambigRecordCond (ts : TS) (defs_assoc : Ty → Bool)
    (A B isect : Ty) : Bool :=
  !(ts.sigs_eq isect B) && !(ts.morespecific A B) && !(defs_assoc isect)

/-! ## Cache typemap entries and the value-level primitives -/

/-- A typemap entry of a dispatch cache (`mt->cache`, `m->invokes`), as
produced by `cache_method`: the entry signature's parameter list, the
optional `simplesig` (as a parameter list), the `guardsigs` (as tuple
type codes), the `isleafsig` flag, and the `jl_lambda_info_t*` payload
(a numeric id). -/
structure CEntry where
  sig : List Ty
  simplesig : Option (List Ty)
  guardsigs : List Ty
  isleafsig : Bool
  payload : Nat
  deriving DecidableEq, Repr

/-- A `defs` typemap entry together with the fields of its `jl_method_t`
payload that the dispatch code reads: method identity, the declared
signature's parameter list, whether the last declared slot is a vararg,
whether `jl_va_tuple_kind(decl) == JL_VARARG_UNBOUND`, the opaque
`m->tvars` value and whether it is `jl_emptysvec`, the `isstaged` flag,
the `called` bitmask, and the `ambig` array (`none` for `jl_nothing`,
otherwise the signatures of the recorded ambiguous methods). -/
structure DefEntry where
  mid : Nat
  sig : List Ty
  sigLastVararg : Bool
  vaUnbound : Bool
  tvars : Ty
  tvarsEmpty : Bool
  isstaged : Bool
  called : Nat
  ambig : Option (List Ty)

/-- One record of an `ml_matches` result array: `svec(ti, env, method)`
with the intersection type, the static-parameter environment and the
matched method's identity. -/
structure MatchRec where
  ti : Ty
  env : List Ty
  mid : Nat
  deriving DecidableEq, Repr

/-- The external value-level collaborators of the dispatcher: `jl_typeof`
of an argument value, the `arg_type_tuple` slot type of a value (which
wraps type arguments in `Type{...}`), the general (non-leaf) signature
match and the guard-signature match used by `jl_typemap_assoc_exact`,
tuple-type equality, the `jl_lambda_info_t` predicates read by
`jl_specializations_get_linfo`, the `ml_matches` query over a method
table's definitions (`none` models `jl_false`), and the `is_leafsig`
classification performed by `jl_typemap_insert`. -/
structure Ext where
  typeOf : Nat → Ty
  arg_type : Nat → Ty
  tuple_match : List Nat → List Ty → Bool
  guard_match : List Nat → Ty → Bool
  tt_eq : Ty → Ty → Bool
  isLinfo : Nat → Bool
  hasCode : Nat → Bool
  ml_matches : Ty → Option (List MatchRec)
  leafsig : List Ty → Bool

/-- A default valuation of the external collaborators, used to build the
concrete instances appearing in witnesses. -/
def Ext0 : Ext where
  typeOf := fun _ => bottom
  arg_type := fun _ => bottom
  tuple_match := fun _ _ => false
  guard_match := fun _ _ => false
  tt_eq := fun _ _ => false
  isLinfo := fun _ => true
  hasCode := fun _ => true
  ml_matches := fun _ => none
  leafsig := fun _ => false

/-- `sig_match_fast` (gf.c:1536): slot-by-slot pointer comparison of
`jl_typeof(args[i])` against the (concrete, hash-consed) signature slot
types.  The C loop runs `i` from `0` to `nargs`; callers check
`nargs == jl_svec_len(sig->parameters)` first. -/
def sig_match_fast (typeOf : Nat → Ty) (args : List Nat) (sig : List Ty) : Bool :=
  (args.zip sig).all fun p => decide (typeOf p.1 = p.2)

/-- The per-entry match test of `jl_typemap_assoc_exact`: the
`simplesig` pre-filter, the arity check, the signature match
(slot-by-slot pointer comparison when `is_leafsig` is set, the general
match otherwise), and the guard-signature exclusion. -/
def assoc_exact_match (ext : Ext) (args : List Nat) (e : CEntry) : Bool :=
  (match e.simplesig with
   | some ss => ext.tuple_match args ss
   | none => true)
  && decide (args.length = e.sig.length)
  && (if e.isleafsig then sig_match_fast ext.typeOf args e.sig
      else ext.tuple_match args e.sig)
  && !(e.guardsigs.any fun g => ext.guard_match args g)

/-- Modelled from the spec: `jl_typemap_assoc_exact` (typemap.c is not
part of the provided source).  Per §4.1: return the first entry whose
signature type-equals the tuple of `type_of` of the args, skipping
entries whose `simplesig` rejects them and entries one of whose
`guardsigs` matches the arguments; slot-by-slot pointer equality
suffices for the match when `is_leafsig` is set. -/
def jl_typemap_assoc_exact (ext : Ext) (cache : List CEntry)
    (args : List Nat) : Option CEntry :=
  cache.find? (assoc_exact_match ext args)

/-! ## Per-method specialization store (`jl_specializations_get_linfo`) -/

/-- An entry of a per-method `specializations` typemap: the concrete
signature (tuple code) and the `jl_lambda_info_t*` payload id. -/
structure SpecEntry where
  sig : Ty
  linfo : Nat
  deriving DecidableEq, Repr

/-- Modelled from the spec: `jl_typemap_assoc_by_type` on the per-method
specializations map (typemap.c is not part of the provided source).
Per §4.1/§4.2: return the first entry whose signature type-equals the
queried signature. -/
def spec_assoc (tt_eq : Ty → Ty → Bool) (specs : List SpecEntry)
    (sig : Ty) : Option SpecEntry :=
  specs.find? fun e => tt_eq e.sig sig

/-- Modelled from the spec: `jl_typemap_insert` on the specializations
map (typemap.c is not part of the provided source).  Per §4.1 Ordering:
a type-equal entry is replaced in place, otherwise the new entry is
added. -/
def spec_insert (tt_eq : Ty → Ty → Bool) :
    List SpecEntry → SpecEntry → List SpecEntry
  | [], e => [e]
  | x :: xs, e => if tt_eq x.sig e.sig then e :: xs else x :: spec_insert tt_eq xs e

/-- `jl_specializations_get_linfo` (gf.c:117): look up the signature in
the method's specializations map; if an entry is found whose payload is
a `LambdaInfo` with `code != jl_nothing`, return it; otherwise build a
fresh specialization via `jl_get_specialized` (modelled by drawing the
next id from the supply `fresh`), insert it, and return it.  The result
is `(payload, updated specializations, updated id supply)`. -/
def jl_specializations_get_linfo (tt_eq : Ty → Ty → Bool)
    (isLinfo hasCode : Nat → Bool) (specs : List SpecEntry)
    (type : Ty) (fresh : Nat) : Nat × List SpecEntry × Nat :=
  match spec_assoc tt_eq specs type with
  | some sf =>
    if isLinfo sf.linfo && hasCode sf.linfo then (sf.linfo, specs, fresh)
    else (fresh, spec_insert tt_eq specs ⟨type, fresh⟩, fresh + 1)
  | none => (fresh, spec_insert tt_eq specs ⟨type, fresh⟩, fresh + 1)

/-! ## The specialization builder (`cache_method`) and its helpers -/

/-- `jl_nth_slot_type` (gf.c:303): the declared type of argument slot `i`
of a signature, unwrapping a trailing vararg; `none` models the C
function's `NULL` result. -/
def jl_nth_slot_type (ts : TS) (sig : List Ty) (lastVararg : Bool)
    (i : Nat) : Option Ty :=
  let len := sig.length
  if len = 0 then none
  else if i < len - 1 then some (sig.getD i bottom)
  else if lastVararg then some (ts.tparam0 (sig.getD (len - 1) bottom))
  else if i = len - 1 then some (sig.getD i bottom)
  else none

/-- `very_general_type` (gf.c:296): `Any`, `Type`, or a type variable
bounded above by `Any`; false for a `NULL` declared slot. -/
def very_general_type (ts : TS) (t : Option Ty) : Bool :=
  match t with
  | none => false
  | some t =>
    decide (t = ts.any_type) || decide (t = ts.type_type) ||
      (ts.is_typevar t && decide (ts.tvar_ub t = ts.any_type))

/-- `join_tsig` (gf.c:319): correct the argument-type tuple after
intersection when an argument slot contained a `Type{X}` but the
definition matched on the *kind* of `X`; in that case the slot becomes
the kind `jl_typeof(X)`. -/
def join_tsig (ts : TS) (tt sig : List Ty) (sigLastVararg : Bool) : List Ty :=
  (List.range tt.length).map fun i =>
    let elt := tt.getD i bottom
    let dg := (jl_nth_slot_type ts sig sigLastVararg i).getD bottom
    if ts.is_type_type elt then
      let kind := ts.typeof_t (ts.tparam0 elt)
      if ts.subtype kind dg && !(ts.subtype ts.type_type dg) then kind else elt
    else elt

/-- The outcome of the per-slot widening loop of `cache_method`
(gf.c:392-492) for one slot: the replacement slot type if the slot was
rewritten (`jl_svecset(newparams, i, ...)`, implying `hasnewparams`),
and the `need_guard_entries` / `makesimplesig` contributions. -/
structure WidenOut where
  newelt : Option Ty
  guard : Bool
  simple : Bool
  deriving DecidableEq, Repr

/-- One iteration of the slot-widening loop of `cache_method`
(gf.c:392-492).  `typeParams` is `type->parameters`, `ttParams` is
`tt->parameters`; the `tt != type` pointer test is modelled as list
inequality (`join_tsig` returns `tt` itself exactly when it changes no
slot).  The `NULL` declared slot is defaulted to `bottom` in the calls
whose C counterparts cannot receive `NULL` on any reachable path. -/
def widen_slot (ts : TS) (isstaged : Bool) (called : Nat)
    (decl : List Ty) (declLastVararg : Bool)
    (typeParams ttParams : List Ty) (i : Nat) : WidenOut :=
  let elt0 := typeParams.getD i bottom
  let decl_i := jl_nth_slot_type ts decl declLastVararg i
  let dg := decl_i.getD bottom
  if (decide (ttParams ≠ typeParams) && decide (elt0 ≠ ttParams.getD i bottom))
      || ts.is_kind elt0 then
    { newelt := none, guard := true, simple := false }
  else if isstaged then
    { newelt := none, guard := false, simple := false }
  else
    let tupleCond := ts.is_type_type elt0 && ts.is_tuple_type (ts.tparam0 elt0) &&
      (!(ts.subtype dg ts.type_type) || ts.is_kind dg)
    let elt := if tupleCond then ts.anytuple_type_type else elt0
    let notcalled_func := decide (0 < i) && decide (i ≤ 8) &&
      !(called.testBit (i - 1)) && ts.subtype elt ts.function_type
    if decl_i = some ts.ANY_flag then
      { newelt := some ts.any_type, guard := true, simple := false }
    else if notcalled_func && (decide (dg = ts.any_type) || decide (dg = ts.function_type) ||
        (ts.is_uniontype dg && decide (ts.union_len dg = 2) &&
         ts.subtype ts.function_type dg && ts.subtype ts.datatype_type dg)) then
      { newelt := some ts.function_type, guard := true, simple := true }
    else if ts.is_type_type elt && ts.is_type_type (ts.tparam0 elt) &&
        (ts.is_type_type (ts.tparam0 (ts.tparam0 elt)) || decl_i = none ||
         !(ts.has_typevars dg)) then
      let ne := if i < decl.length then
          let declt0 := decl.getD i bottom
          let declt := if ts.is_vararg_type declt0 then ts.tparam0 declt0 else declt0
          let di := ts.intersect declt ts.typetype_type
          if ts.is_kind di then ts.typetype_type else di
        else ts.typetype_type
      { newelt := some ne, guard := true, simple := false }
    else if ts.is_type_type elt && very_general_type ts decl_i &&
        !(ts.has_typevars dg) then
      { newelt := some ts.typetype_type, guard := true, simple := false }
    else
      { newelt := if tupleCond then some ts.anytuple_type_type else none,
        guard := tupleCond, simple := false }

/-- The accumulated outcome of the whole slot-widening loop. -/
structure WidenAcc where
  params : List Ty
  hasnew : Bool
  guard : Bool
  simple : Bool

/-- The slot-widening loop of `cache_method` (gf.c:392-492) over all
slots.  Each iteration writes at most its own slot of `newparams`, so
the loop is the slot-wise map of `widen_slot`. -/
def widen_all (ts : TS) (isstaged : Bool) (called : Nat)
    (decl : List Ty) (declLastVararg : Bool)
    (typeParams ttParams : List Ty) : WidenAcc :=
  let ws := (List.range typeParams.length).map
    (widen_slot ts isstaged called decl declLastVararg typeParams ttParams)
  { params := List.zipWith (fun e w => w.newelt.getD e) typeParams ws
    hasnew := ws.any fun w => w.newelt.isSome
    guard := ws.any fun w => w.guard
    simple := ws.any fun w => w.simple }

/-- The flat `(tvar, value)` environment built at gf.c:536-544 for
instantiating the declared vararg slot: pairs `m->tvars[j]` (or
`m->tvars` itself when it is a single type variable) with `sparams[j]`. -/
def build_sparam_env (ts : TS) (tvars : Ty) (sparams : List Ty) :
    List (Ty × Ty) :=
  (List.range sparams.length).map fun j =>
    ((if j = 0 && ts.is_typevar tvars then tvars else ts.svec_ref tvars j),
     sparams.getD j bottom)

/-- The vararg-truncation step of `cache_method` (gf.c:494-560).  When
the method is not staged, the (possibly slot-widened) signature has more
parameters than `mt->max_args`, and the declared signature ends in an
unbounded vararg, the signature is cut down to `mt->max_args + 2` slots;
the result is `some limited` in that case (the C code also sets
`hasnewparams` and `need_guard_entries`), and `none` otherwise. -/
def vararg_truncate (ts : TS) (isstaged : Bool) (max_args : Nat)
    (decl : List Ty) (vaUnbound : Bool) (tvars : Ty) (sparams : List Ty)
    (newparams : List Ty) : Option (List Ty) :=
  if !isstaged && decide (newparams.length > max_args) && vaUnbound then
    let nspec := max_args + 2
    let limited := (List.range (nspec - 1)).map fun i => newparams.getD i bottom
    let lasttype := newparams.getD (nspec - 2) bottom
    let all_are_subtypes :=
      (List.range' (nspec - 1) (newparams.length - (nspec - 1))).all fun j =>
        ts.subtype (newparams.getD j bottom) lasttype
    if all_are_subtypes then
      let lt := if ts.is_type_type lasttype && ts.is_type_type (ts.tparam0 lasttype)
                then ts.type_type else lasttype
      some (limited ++ [ts.wrap_vararg lt])
    else
      let lastdeclt0 := decl.getD (decl.length - 1) bottom
      let lastdeclt := if sparams.length > 0
        then ts.instantiate lastdeclt0 (build_sparam_env ts tvars sparams)
        else lastdeclt0
      some (limited ++ [lastdeclt])
  else none

/-- `MAX_UNSPECIALIZED_CONFLICTS` (gf.c:21). -/
def MAX_UNSPECIALIZED_CONFLICTS : Nat := 32

/-- The scan of the `ml_matches` result at gf.c:576-599: walk the match
records accumulating the count `guards` of records whose method differs
from the matched definition; before each record is counted, bail out
(returning `cache_with_orig = true`) if the record's environment leaves
a type variable unmatched or if the count already exceeds
`MAX_UNSPECIALIZED_CONFLICTS`. -/
def guard_count_loop (ts : TS) (defId : Nat) :
    List MatchRec → Nat → Bool × Nat
  | [], guards => (false, guards)
  | r :: rest, guards =>
    if r.env.any ts.is_typevar || decide (guards > MAX_UNSPECIALIZED_CONFLICTS) then
      (true, guards)
    else
      guard_count_loop ts defId rest (if r.mid ≠ defId then guards + 1 else guards)

/-- The number of match records whose method differs from the matched
definition (the records counted by `guards` at gf.c:596-598). -/
def competing_count (defId : Nat) (ms : List MatchRec) : Nat :=
  (ms.filter fun r => r.mid ≠ defId).length

/-- The guard signatures extracted at gf.c:601-617: the intersection
types of the match records whose method differs from the definition. -/
def guard_sigs (defId : Nat) (ms : List MatchRec) : List Ty :=
  (ms.filter fun r => r.mid ≠ defId).map fun r => r.ti

/-- The guard-collection step of `cache_method` (gf.c:569-618), given
the `ml_matches(mt->defs, type, -1)` result (`none` models `jl_false`):
returns the `cache_with_orig` flag and the extracted `guardsigs`. -/
def guards_decision (ts : TS) (defId : Nat)
    (mres : Option (List MatchRec)) : Bool × List Ty :=
  match mres with
  | none => (true, [])
  | some ms =>
    let p := guard_count_loop ts defId ms 0
    if !p.1 && decide (p.2 > 0) then (false, guard_sigs defId ms)
    else (p.1, [])

/-- The outcome of `cache_method`: the returned `jl_lambda_info_t*`
payload (`newmeth`), the fields of the typemap entry inserted at
gf.c:659 (`key` is the entry signature `origtype`, `simplesig` the
`simpletype` argument), the internal `cache_with_orig` and
`need_guard_entries` decision bits, the signature parameters the
specialization itself was built for (the `type` passed to
`jl_specializations_get_linfo` at gf.c:621), and the updated cache,
specialization store and id supply. -/
structure CMResult where
  newmeth : Nat
  key : List Ty
  simplesig : Option (List Ty)
  guardsigs : List Ty
  cacheWithOrig : Bool
  needGuards : Bool
  specTypeParams : List Ty
  cache : List CEntry
  specs : List SpecEntry
  fresh : Nat

/-- `cache_method` (gf.c:369-671): given the specialized signature
`type` (parameters `typeParams`, produced by `join_tsig`), the original
argument-type tuple `tt` (parameters `ttParams`), the matched `defs`
entry `m` and the matched static parameters `sparams`, widen and/or
truncate the signature, collect guard entries, build the specialization
through `jl_specializations_get_linfo`, and insert the resulting entry
into the given cache typemap (insertion order within the typemap is
external; the entry is prepended here and theorems use membership only).
Locking, tracing and the type-inference trigger are effects outside
this model. -/
def cache_method (ts : TS) (ext : Ext) (max_args : Nat)
    (cache : List CEntry) (typeParams ttParams : List Ty)
    (m : DefEntry) (sparams : List Ty)
    (specs : List SpecEntry) (fresh : Nat) : CMResult :=
  let w := widen_all ts m.isstaged m.called m.sig m.sigLastVararg typeParams ttParams
  let trunc := vararg_truncate ts m.isstaged max_args m.sig m.vaUnbound m.tvars
    sparams w.params
  let newparams := trunc.getD w.params
  let hasnewparams := w.hasnew || trunc.isSome
  let need_guard_entries := w.guard || trunc.isSome
  let typeP := if hasnewparams then newparams else typeParams
  let origtypeP := typeParams
  let gd := if need_guard_entries
    then guards_decision ts m.mid (ext.ml_matches (ts.tuple_of typeP))
    else (false, [])
  let r := jl_specializations_get_linfo ext.tt_eq ext.isLinfo ext.hasCode specs
    (ts.tuple_of typeP) fresh
  let ks : List Ty × Option (List Ty) :=
    if gd.1 then
      if ttParams = origtypeP then (ttParams, none) else (ttParams, some origtypeP)
    else
      (typeP,
       if w.simple then
         some (typeP.map fun elt => if elt = ts.function_type then ts.any_type else elt)
       else none)
  let entry : CEntry :=
    { sig := ks.1, simplesig := ks.2, guardsigs := gd.2,
      isleafsig := ext.leafsig ks.1, payload := r.1 }
  { newmeth := r.1, key := ks.1, simplesig := ks.2, guardsigs := gd.2,
    cacheWithOrig := gd.1, needGuards := need_guard_entries,
    specTypeParams := typeP, cache := entry :: cache,
    specs := r.2.1, fresh := r.2.2 }

/-! ## Method-table lookup (`jl_mt_assoc_by_type` and callers) -/

/-- `jl_has_call_ambiguities` (gf.c:1103): a method's recorded ambiguity
list blocks a call signature `types` exactly when some recorded
ambiguous method's signature has non-empty intersection with `types`;
`m->ambig == jl_nothing` blocks nothing. -/
def jl_has_call_ambiguities (ts : TS) (types : Ty)
    (ambig : Option (List Ty)) : Bool :=
  match ambig with
  | none => false
  | some l => l.any fun msig => decide (ts.intersect msig types ≠ bottom)

/-- The result of a method-table lookup: the returned payload (`none`
models a `NULL` `jl_lambda_info_t*`) plus the updated shared dispatch
cache, specialization store and id supply. -/
structure LookupResult where
  res : Option Nat
  mtcache : List CEntry
  specs : List SpecEntry
  fresh : Nat

/-- `jl_mt_assoc_by_type` (gf.c:673): `lookup` is the external
`jl_typemap_assoc_by_type(mt->defs, tt, &env, inexact, 1, 0)` result
(`none` covers both `NULL` and `INEXACT_ENTRY`), carrying the matched
entry and the filled static-parameter environment.  On a match that is
not blocked by `jl_has_call_ambiguities`, repair the signature with
`join_tsig` and either build an uncached specialization
(`jl_get_specialized`, modelled by drawing a fresh id) or run
`cache_method` on the shared cache. -/
def jl_mt_assoc_by_type (ts : TS) (ext : Ext) (max_args : Nat)
    (lookup : Option (DefEntry × List Ty)) (mtcache : List CEntry)
    (ttParams : List Ty) (docache : Bool)
    (specs : List SpecEntry) (fresh : Nat) : LookupResult :=
  match lookup with
  | none => ⟨none, mtcache, specs, fresh⟩
  | some (entry, env) =>
    if jl_has_call_ambiguities ts (ts.tuple_of ttParams) entry.ambig then
      ⟨none, mtcache, specs, fresh⟩
    else
      let sig := join_tsig ts ttParams entry.sig entry.sigLastVararg
      if !docache then ⟨some fresh, mtcache, specs, fresh + 1⟩
      else
        let r := cache_method ts ext max_args mtcache sig ttParams entry env
          specs fresh
        ⟨some r.newmeth, r.cache, r.specs, r.fresh⟩

/-- `jl_method_lookup_by_type` (gf.c:1001): first consult the shared
dispatch cache (the external `jl_typemap_assoc_by_type(mt->cache, ...)`
query is the input `cacheLookup`); on a miss, force `cache = 1` when the
queried tuple is a leaf type, then delegate to `jl_mt_assoc_by_type`
(whose external `defs` query is the input `defsLookup`). -/
def jl_method_lookup_by_type (ts : TS) (ext : Ext) (max_args : Nat)
    (cacheLookup : Option CEntry) (defsLookup : Option (DefEntry × List Ty))
    (mtcache : List CEntry) (typesParams : List Ty) (cache : Bool)
    (specs : List SpecEntry) (fresh : Nat) : LookupResult :=
  match cacheLookup with
  | some e => ⟨some e.payload, mtcache, specs, fresh⟩
  | none =>
    let cache1 := if ts.is_leaf_type (ts.tuple_of typesParams) then true else cache
    jl_mt_assoc_by_type ts ext max_args defsLookup mtcache typesParams cache1
      specs fresh

/-! ## The generic-apply entry and its call-site inline cache -/

/-- `N_CALL_CACHE`.  The constant lives in julia_internal.h, which is not
part of the provided source; modelled from the spec (§4.7: a power of
two, 4096 the reference value). -/
def N_CALL_CACHE : Nat := 4096

/-- The four candidate slot indices of gf.c:1709-1713, derived from the
32-bit call-site hash; `x & (N_CALL_CACHE - 1)` is `x % N_CALL_CACHE`
since `N_CALL_CACHE` is a power of two, and the fourth index rotates the
hash (`callsite >> 24 | callsite << 8` as a 32-bit value). -/
def cache_idxs (callsite : Nat) : List Nat :=
  [callsite % N_CALL_CACHE,
   (callsite >>> 8) % N_CALL_CACHE,
   (callsite >>> 16) % N_CALL_CACHE,
   (((callsite >>> 24) ||| (callsite <<< 8)) % 2 ^ 32) % N_CALL_CACHE]

/-- The process-wide inline-cache state: the `call_cache` slot array and
the `pick_which` byte array (gf.c:1582-1583). -/
structure CCState where
  cc : Nat → Option CEntry
  pick : Nat → Nat

/-- The empty inline cache (all slots `NULL`, all counters zero). -/
def empty_cc : CCState := ⟨fun _ => none, fun _ => 0⟩

/-- The fast-path probe of gf.c:1718-1724: walk the candidate slots in
order and stop at the first one holding an entry with the right arity
whose signature passes `sig_match_fast`. -/
def call_cache_probe (ext : Ext) (st : CCState) (idxs : List Nat)
    (args : List Nat) : Option CEntry :=
  match idxs with
  | [] => none
  | ix :: rest =>
    match st.cc ix with
    | some e =>
      if decide (args.length = e.sig.length) && sig_match_fast ext.typeOf args e.sig
      then some e
      else call_cache_probe ext st rest args
    | none => call_cache_probe ext st rest args

/-- The eligibility test of gf.c:1730: `isleafsig` set, no `simplesig`,
empty `guardsigs`. -/
def entry_eligible (e : CEntry) : Bool :=
  e.isleafsig && e.simplesig.isNone && e.guardsigs.isEmpty

/-- The slow-path install of gf.c:1730-1734: when the entry found by
`jl_typemap_assoc_exact` is eligible, store it into
`call_cache[cache_idx[++pick_which[cache_idx[0]] & 3]]` (the counter is
a `uint8_t`, so the pre-increment wraps at 256). -/
def call_cache_install (st : CCState) (idxs : List Nat) (e : CEntry) : CCState :=
  if entry_eligible e then
    let idx0 := idxs.getD 0 0
    let p := (st.pick idx0 + 1) % 256
    let tgt := idxs.getD (p % 4) 0
    { cc := fun k => if k = tgt then some e else st.cc k,
      pick := fun k => if k = idx0 then p else st.pick k }
  else st

/-- A sequence of slow-path install events against the process-wide
inline cache: each event carries the candidate indices of its call site
and the entry found by `jl_typemap_assoc_exact` there. -/
def run_call_cache (events : List (List Nat × CEntry)) (st : CCState) : CCState :=
  events.foldl (fun s ev => call_cache_install s ev.1 ev.2) st

/-- The result of one `jl_apply_generic` call: the dispatched payload
(`none` models `jl_method_error`) and the updated inline cache, shared
dispatch cache, specialization store and id supply. -/
structure AGResult where
  res : Option Nat
  cc : CCState
  mtcache : List CEntry
  specs : List SpecEntry
  fresh : Nat

/-- `jl_apply_generic` (gf.c:1605, implementation 3): probe the four
inline-cache slots; on a miss run `jl_typemap_assoc_exact` on the method
table's cache and install an eligible hit; on a full miss build the
argument-type tuple (`arg_type_tuple`) and run `jl_mt_assoc_by_type`
with `cache = 1` (the external `defs` query is the function
`defsLookup`), erroring when that returns nothing. -/
def jl_apply_generic (ts : TS) (ext : Ext) (max_args : Nat)
    (defsLookup : List Ty → Option (DefEntry × List Ty))
    (st : CCState) (mtcache : List CEntry) (callsite : Nat)
    (args : List Nat) (specs : List SpecEntry) (fresh : Nat) : AGResult :=
  let idxs := cache_idxs callsite
  match call_cache_probe ext st idxs args with
  | some entry => ⟨some entry.payload, st, mtcache, specs, fresh⟩
  | none =>
    match jl_typemap_assoc_exact ext mtcache args with
    | some e =>
      ⟨some e.payload, call_cache_install st idxs e, mtcache, specs, fresh⟩
    | none =>
      let tt := args.map ext.arg_type
      let r := jl_mt_assoc_by_type ts ext max_args (defsLookup tt) mtcache tt
        true specs fresh
      ⟨r.res, st, r.mtcache, r.specs, r.fresh⟩

/-! ## The `invoke()` pathway (`jl_gf_invoke`) -/

/-- The state touched by `jl_gf_invoke`: the method table's shared
dispatch cache, the matched method's private `invokes` typemap (`none`
models the `NULL` initial value), its specialization store, and the id
supply. -/
structure InvokeState where
  mtcache : List CEntry
  invokes : Option (List CEntry)
  specs : List SpecEntry
  fresh : Nat

/-- `jl_gf_invoke` (gf.c:1789): `entryLookup` is the external
`jl_gf_invoke_lookup` result over `mt->defs`; `envIn` the environment
filled by the external `jl_lookup_match` (consulted only when the
entry's `tvars` is non-empty).  On a hit in the method's private
`invokes` typemap dispatch directly; otherwise repair the argument
tuple with `join_tsig` and run `cache_method` on the *invokes* typemap. -/
def jl_gf_invoke (ts : TS) (ext : Ext) (max_args : Nat)
    (entryLookup : Option DefEntry) (envIn : List Ty)
    (st : InvokeState) (args : List Nat) : Option Nat × InvokeState :=
  match entryLookup with
  | none => (none, st)
  | some entry =>
    let tm := match st.invokes with
      | some inv => jl_typemap_assoc_exact ext inv args
      | none => none
    match tm with
    | some e => (some e.payload, st)
    | none =>
      let tt := args.map ext.arg_type
      let tpenv := if entry.tvarsEmpty then [] else envIn
      let sig := join_tsig ts tt entry.sig entry.sigLastVararg
      let inv0 := st.invokes.getD []
      let r := cache_method ts ext max_args inv0 sig tt entry tpenv
        st.specs st.fresh
      (some r.newmeth,
       { st with invokes := some r.cache, specs := r.specs, fresh := r.fresh })

/-! ## Definition insertion and cache invalidation -/

/-- A shared-dispatch-cache entry as seen by `invalidate_conflicting`:
its signature (tuple code) and the identity of the defining method
(`l->func.linfo->def`). -/
structure CacheLink where
  sig : Ty
  defId : Nat
  deriving DecidableEq, Repr

/-- The two-level typemap shape walked by `invalidate_conflicting`: a
linear entry list, or a `jl_typemap_level_t` with the `arg1` array, the
`targ` array and the linear tail (array cells holding `jl_nothing` are
omitted). -/
inductive TMapNode where
  | linear : List CacheLink → TMapNode
  | level : List TMapNode → List TMapNode → List CacheLink → TMapNode

/-- The unlink pass of `invalidate_conflicting` over one linked list
(gf.c:876-896): an entry is unlinked exactly when its defining method is
in `shadowed` and its signature intersects the new definition's
signature. -/
def invalidate_entries (ts : TS) (type : Ty) (shadowed : List Nat)
    (l : List CacheLink) : List CacheLink :=
  l.filter fun e =>
    !(shadowed.contains e.defId && decide (ts.intersect type e.sig ≠ bottom))

mutual

/-- `invalidate_conflicting` (gf.c:849): recurse into both arrays of a
level node and filter every linear list. -/
def invalidate_conflicting (ts : TS) (type : Ty) (shadowed : List Nat) :
    TMapNode → TMapNode
  | .linear l => .linear (invalidate_entries ts type shadowed l)
  | .level a t lin =>
    .level (invalidate_forest ts type shadowed a)
      (invalidate_forest ts type shadowed t)
      (invalidate_entries ts type shadowed lin)

/-- `invalidate_conflicting` mapped over the children of a level node. -/
def invalidate_forest (ts : TS) (type : Ty) (shadowed : List Nat) :
    List TMapNode → List TMapNode
  | [] => []
  | x :: xs =>
    invalidate_conflicting ts type shadowed x :: invalidate_forest ts type shadowed xs

end

mutual

/-- All entries stored in a typemap tree, in traversal order. -/
def tmap_entries : TMapNode → List CacheLink
  | .linear l => l
  | .level a t lin => tmap_forest_entries a ++ tmap_forest_entries t ++ lin

/-- All entries stored in a list of typemap trees. -/
def tmap_forest_entries : List TMapNode → List CacheLink
  | [] => []
  | x :: xs => tmap_entries x ++ tmap_forest_entries xs

end

/-- `update_max_args` (gf.c:899) over the new signature's parameter
count `np` and unbound-vararg flag. -/
def update_max_args (max_args np : Nat) (vaUnbound : Bool) : Nat :=
  let na := if vaUnbound then np - 1 else np
  if na > max_args then na else max_args

/-- The method-table state touched by `jl_method_table_insert`: the
per-method `ambig` store, the shared dispatch cache, and `max_args`. -/
structure MTState where
  ambig : Nat → Option (List Nat)
  cache : TMapNode
  max_args : Nat

/-- `jl_method_table_insert` (gf.c:908), after the external
`jl_typemap_insert` into `mt->defs` has placed the new entry and
reported a displaced type-equal method (`displaced`, the `oldvalue` out
parameter).  On displacement the new method inherits the old method's
`ambig` list, the pairwise ambiguity scan is skipped, and the shadowed
set is the singleton of the displaced method; otherwise the scan runs
and its shadowed set (if any) drives invalidation.  `np`/`vaUnbound`
describe the new signature for `update_max_args`. -/
def jl_method_table_insert (ts : TS) (defs_assoc : Ty → Bool)
    (defs : List MEntry) (st : MTState) (method : MEntry)
    (np : Nat) (vaUnbound : Bool) (displaced : Option Nat) : MTState :=
  let st1 :=
    match displaced with
    | some oldId =>
      { st with
        ambig := fun k => if k = method.mid then st.ambig oldId else st.ambig k,
        cache := invalidate_conflicting ts method.sig [oldId] st.cache }
    | none =>
      let scan := check_ambiguous_matches ts defs_assoc defs method st.ambig
      match scan.shadowed with
      | some sh =>
        { st with ambig := scan.ambig,
                  cache := invalidate_conflicting ts method.sig sh st.cache }
      | none => { st with ambig := scan.ambig }
  { st1 with max_args := update_max_args st1.max_args np vaUnbound }

/-! ## Helper lemmas -/

theorem find_eq_of_mem_of_unique {α : Type} (p : α → Bool) (l : List α) (e : α)
    (he : e ∈ l) (hpe : p e = true)
    (huniq : ∀ x ∈ l, p x = true → x = e) : l.find? p = some e := by
  induction l with
  | nil => cases he
  | cons a as ih =>
    by_cases hpa : p a = true
    · rw [List.find?_cons_of_pos _ hpa, huniq a (List.mem_cons_self a as) hpa]
    · have he' : e ∈ as := by
        rcases List.mem_cons.mp he with h | h
        · exact absurd (h ▸ hpe) hpa
        · exact h
      rw [List.find?_cons_of_neg _ hpa]
      exact ih he' (fun x hx hpx => huniq x (List.mem_cons_of_mem a hx) hpx)

theorem call_cache_probe_spec (ext : Ext) (st : CCState) (idxs : List Nat)
    (args : List Nat) (e : CEntry)
    (h : call_cache_probe ext st idxs args = some e) :
    (∃ ix ∈ idxs, st.cc ix = some e) ∧ args.length = e.sig.length ∧
      sig_match_fast ext.typeOf args e.sig = true := by
  induction idxs with
  | nil => simp [call_cache_probe] at h
  | cons ix rest ih =>
    rw [call_cache_probe] at h
    rcases hcc : st.cc ix with _ | a
    · rw [hcc] at h
      rcases ih h with ⟨⟨jx, hjx, hj⟩, h2, h3⟩
      exact ⟨⟨jx, List.mem_cons_of_mem ix hjx, hj⟩, h2, h3⟩
    · rw [hcc] at h
      have h' : (if (decide (args.length = a.sig.length) &&
          sig_match_fast ext.typeOf args a.sig) = true
          then some a else call_cache_probe ext st rest args) = some e := h
      by_cases hcond : (decide (args.length = a.sig.length) &&
          sig_match_fast ext.typeOf args a.sig) = true
      · rw [if_pos hcond] at h'
        cases h'
        have hc : args.length = e.sig.length ∧
            sig_match_fast ext.typeOf args e.sig = true := by simpa using hcond
        exact ⟨⟨ix, List.mem_cons_self ix rest, hcc⟩, hc.1, hc.2⟩
      · rw [if_neg hcond] at h'
        rcases ih h' with ⟨⟨jx, hjx, hj⟩, h2, h3⟩
        exact ⟨⟨jx, List.mem_cons_of_mem ix hjx, hj⟩, h2, h3⟩

theorem mem_spec_insert (tt_eq : Ty → Ty → Bool) (l : List SpecEntry)
    (e : SpecEntry) : e ∈ spec_insert tt_eq l e := by
  induction l with
  | nil => simp [spec_insert]
  | cons x xs ih =>
    rw [spec_insert]
    by_cases h : tt_eq x.sig e.sig = true
    · simp [h]
    · simp only [h]
      exact List.mem_cons_of_mem x ih

theorem widen_all_params_length (ts : TS) (isstaged : Bool) (called : Nat)
    (decl : List Ty) (declLastVararg : Bool) (typeParams ttParams : List Ty) :
    (widen_all ts isstaged called decl declLastVararg typeParams ttParams).params.length
      = typeParams.length := by
  simp [widen_all]

theorem competing_count_nil (defId : Nat) : competing_count defId [] = 0 := rfl

theorem competing_count_cons (defId : Nat) (r : MatchRec) (rs : List MatchRec) :
    competing_count defId (r :: rs) =
      (if r.mid ≠ defId then 1 else 0) + competing_count defId rs := by
  by_cases h : r.mid = defId <;> simp [competing_count, List.filter, h, Nat.add_comm]

theorem guard_count_loop_true_iff (ts : TS) (defId : Nat) :
    ∀ (ms : List MatchRec) (g : Nat),
      (guard_count_loop ts defId ms g).1 = true ↔
        ∃ i, i < ms.length ∧
          ((ms.getD i ⟨0, [], 0⟩).env.any ts.is_typevar = true ∨
            g + competing_count defId (ms.take i) > MAX_UNSPECIALIZED_CONFLICTS) := by
  intro ms
  induction ms with
  | nil => intro g; simp [guard_count_loop]
  | cons r rest ih =>
    intro g
    rw [guard_count_loop]
    by_cases h0 : (r.env.any ts.is_typevar ||
        decide (g > MAX_UNSPECIALIZED_CONFLICTS)) = true
    · rw [if_pos h0]
      simp only [true_iff]
      refine ⟨0, by simp, ?_⟩
      have h0' : r.env.any ts.is_typevar = true ∨ g > MAX_UNSPECIALIZED_CONFLICTS := by
        simpa using h0
      rcases h0' with h | h
      · exact Or.inl h
      · exact Or.inr (by simpa [competing_count_nil] using h)
    · rw [if_neg h0]
      rw [ih]
      have hg : ¬(g > MAX_UNSPECIALIZED_CONFLICTS) := by
        intro hgt
        exact h0 (by simp [hgt])
      have henv : r.env.any ts.is_typevar = false := by
        cases hv : r.env.any ts.is_typevar
        · rfl
        · exact absurd (by simp [hv]) h0
      constructor
      · rintro ⟨i, hi, hcase⟩
        refine ⟨i + 1, by simpa using Nat.succ_lt_succ hi, ?_⟩
        rcases hcase with h | h
        · exact Or.inl (by simpa using h)
        · refine Or.inr ?_
          rw [List.take_succ_cons, competing_count_cons]
          by_cases hm : r.mid = defId <;> simp [hm] at h ⊢ <;> omega
      · rintro ⟨i, hi, hcase⟩
        cases i with
        | zero =>
          rcases hcase with h | h
          · rw [List.getD_cons_zero] at h
            exact absurd h (by simp [henv])
          · simp [competing_count_nil] at h
            exact absurd h hg
        | succ j =>
          refine ⟨j, by simpa using Nat.lt_of_succ_lt_succ hi, ?_⟩
          rcases hcase with h | h
          · exact Or.inl (by simpa using h)
          · refine Or.inr ?_
            rw [List.take_succ_cons, competing_count_cons] at h
            by_cases hm : r.mid = defId <;> simp [hm] at h ⊢ <;> omega

theorem guard_count_loop_false (ts : TS) (defId : Nat) :
    ∀ (ms : List MatchRec) (g : Nat),
      (guard_count_loop ts defId ms g).1 = false →
      (guard_count_loop ts defId ms g).2 = g + competing_count defId ms := by
  intro ms
  induction ms with
  | nil => intro g _; simp [guard_count_loop, competing_count_nil]
  | cons r rest ih =>
    intro g h
    rw [guard_count_loop] at h ⊢
    by_cases h0 : (r.env.any ts.is_typevar ||
        decide (g > MAX_UNSPECIALIZED_CONFLICTS)) = true
    · rw [if_pos h0] at h; cases h
    · rw [if_neg h0] at h ⊢
      rw [ih _ h, competing_count_cons]
      by_cases hm : r.mid = defId
      · simp [hm]
      · simp [hm]; omega

/-! ## Claim theorems -/

/-- C1.  Corrected claim: at each visit of a prior entry `O` with
non-empty intersection `I = N.sig ∩ O.sig` (with `A` the earlier of the
two signatures in the ordered list and `B` the later), the analyzer
records `N` and `O` in each other's `ambig` lists if and only if `I` is
not type-equal to `B`, `more_specific(A, B)` does not hold, and no third
signature in `defs` covers `I` via `assoc_by_type`; in every other case
no ambiguity is recorded. -/
theorem C1_thm (ts : TS) (dassoc : Ty → Bool) (ne old : MEntry) (isect : Ty)
    (st : AmbState) (h : old.mid ≠ ne.mid) :
    ((check_ambiguous_visitor ts dassoc ne old isect st).ambig ne.mid =
      if ambigRecordCond ts dassoc (if st.after then ne.sig else old.sig)
          (if st.after then old.sig else ne.sig) isect
      then some (((st.ambig ne.mid).getD []) ++ [old.mid])
      else st.ambig ne.mid) ∧
    ((check_ambiguous_visitor ts dassoc ne old isect st).ambig old.mid =
      if ambigRecordCond ts dassoc (if st.after then ne.sig else old.sig)
          (if st.after then old.sig else ne.sig) isect
      then some (((st.ambig old.mid).getD []) ++ [ne.mid])
      else st.ambig old.mid) := by
  unfold check_ambiguous_visitor ambigRecordCond
  rw [if_neg h]
  cases hb : st.after with
  | false =>
    simp only [hb]
    by_cases c1 : ts.sigs_eq isect ne.sig = true <;>
    by_cases c2 : ts.morespecific old.sig ne.sig = true <;>
    by_cases c3 : dassoc isect = true <;>
    simp [c1, c2, c3, h, Ne.symm h]
  | true =>
    simp only [hb]
    by_cases c1 : ts.sigs_eq isect old.sig = true <;>
    by_cases c2 : ts.morespecific ne.sig old.sig = true <;>
    by_cases c3 : dassoc isect = true <;>
    simp [c1, c2, c3, h, Ne.symm h]

/-- C1 witness: the corrected condition evaluated on one concrete
recording step and one concrete non-recording step. -/
theorem C1_witness :
    ((check_ambiguous_visitor TS0 (fun _ => false) ⟨1, 10⟩ ⟨2, 20⟩ 5
        ⟨fun _ => none, none, false⟩).ambig 1 = some [2]) ∧
    ((check_ambiguous_visitor
        { TS0 with morespecific := fun a b => decide (a = 20) && decide (b = 10) }
        (fun _ => false) ⟨1, 10⟩ ⟨2, 20⟩ 5
        ⟨fun _ => none, none, false⟩).ambig 1 = none) := by
  constructor
  · rw [(C1_thm TS0 (fun _ => false) ⟨1, 10⟩ ⟨2, 20⟩ 5
      ⟨fun _ => none, none, false⟩ (by decide)).1]
    decide
  · rw [(C1_thm
      { TS0 with morespecific := fun a b => decide (a = 20) && decide (b = 10) }
      (fun _ => false) ⟨1, 10⟩ ⟨2, 20⟩ 5
      ⟨fun _ => none, none, false⟩ (by decide)).1]
    decide

/-- C1 counterexample: with the old entry earlier (`A = 20`), the later
signature `B = 10`, intersection `I = 5`, a type system where
`more_specific(A, B)` holds but `more_specific(B, A)` does not, no
type-equality and no third cover, the claim's condition ("I not
type-equal to B, more_specific(B, A) does not hold without the reverse
holding, no third cover") is satisfied, yet the analyzer records no
ambiguity. -/
theorem C1_counterexample :
    (let ts : TS :=
      { TS0 with morespecific := fun a b => decide (a = 20) && decide (b = 10) };
     let dassoc : Ty → Bool := fun _ => false;
     (¬(ts.sigs_eq 5 10 = true)) ∧
     (¬(ts.morespecific 10 20 = true ∧ ¬(ts.morespecific 20 10 = true))) ∧
     (¬(dassoc 5 = true)) ∧
     (check_ambiguous_visitor ts dassoc ⟨1, 10⟩ ⟨2, 20⟩ 5
        ⟨fun _ => none, none, false⟩).ambig 1 = none ∧
     (check_ambiguous_visitor ts dassoc ⟨1, 10⟩ ⟨2, 20⟩ 5
        ⟨fun _ => none, none, false⟩).ambig 2 = none) := by
  refine ⟨by decide, by decide, by decide, ?_, ?_⟩ <;> rfl

theorem call_cache_install_preserves (st : CCState) (idxs : List Nat) (a : CEntry)
    (h : ∀ ix e, st.cc ix = some e → entry_eligible e = true) :
    ∀ ix e, (call_cache_install st idxs a).cc ix = some e →
      entry_eligible e = true := by
  intro ix e he
  rw [call_cache_install] at he
  by_cases ha : entry_eligible a = true
  · rw [if_pos ha] at he
    dsimp only at he
    by_cases hx : ix = idxs.getD (((st.pick (idxs.getD 0 0) + 1) % 256) % 4) 0
    · rw [if_pos hx] at he
      cases he
      exact ha
    · rw [if_neg hx] at he
      exact h ix e he
  · rw [if_neg ha] at he
    exact h ix e he

/-- C2.  Corrected claim: provided every inline-cache slot holds an
entry still linked in the method table's dispatch cache, every such
entry is fast-path eligible, and no two linked cache entries match the
same argument list, the generic-apply entry returns the same value or
raises the same error whether or not the four-slot call-site inline
cache produced a hit: a fast-path hit dispatches to the same
specialization that the slow path would select. -/
theorem C2_thm (ts : TS) (ext : Ext) (max_args : Nat)
    (defsLookup : List Ty → Option (DefEntry × List Ty))
    (st : CCState) (mtcache : List CEntry) (callsite : Nat)
    (args : List Nat) (specs : List SpecEntry) (fresh : Nat)
    (hlive : ∀ ix e, st.cc ix = some e → e ∈ mtcache)
    (helig : ∀ ix e, st.cc ix = some e → entry_eligible e = true)
    (huniq : ∀ e₁ ∈ mtcache, ∀ e₂ ∈ mtcache, assoc_exact_match ext args e₁ = true →
      assoc_exact_match ext args e₂ = true → e₁ = e₂) :
    (jl_apply_generic ts ext max_args defsLookup st mtcache callsite args
      specs fresh).res =
    (jl_apply_generic ts ext max_args defsLookup empty_cc mtcache callsite args
      specs fresh).res := by
  have hempty : call_cache_probe ext empty_cc (cache_idxs callsite) args = none := by
    simp [call_cache_probe, cache_idxs, empty_cc]
  rcases hp : call_cache_probe ext st (cache_idxs callsite) args with _ | e
  · simp only [jl_apply_generic, hp, hempty]
    cases ha : jl_typemap_assoc_exact ext mtcache args <;> simp [ha]
  · obtain ⟨⟨ix, _, hix⟩, hlen, hmatch⟩ :=
      call_cache_probe_spec ext st (cache_idxs callsite) args e hp
    have hmem : e ∈ mtcache := hlive ix e hix
    have helig' := helig ix e hix
    simp only [entry_eligible, Bool.and_eq_true, Option.isNone_iff_eq_none,
      List.isEmpty_iff] at helig'
    obtain ⟨⟨h1, h2⟩, h3⟩ := helig'
    have hpred : assoc_exact_match ext args e = true := by
      simp [assoc_exact_match, h1, h2, h3, hlen, hmatch]
    have hassoc : jl_typemap_assoc_exact ext mtcache args = some e := by
      rw [jl_typemap_assoc_exact]
      exact find_eq_of_mem_of_unique _ _ e hmem hpred
        (fun x hx hpx => huniq x hx e hmem hpx hpred)
    simp only [jl_apply_generic, hp, hempty, hassoc]

/-- C2 witness: the corrected equivalence applied to a one-entry dispatch
cache whose entry also sits in an inline-cache slot. -/
theorem C2_witness :
    (jl_apply_generic TS0 { Ext0 with typeOf := fun _ => 7 } 0 (fun _ => none)
      ⟨fun k => if k = 0 then some ⟨[7], none, [], true, 2⟩ else none, fun _ => 0⟩
      [⟨[7], none, [], true, 2⟩] 0 [5] [] 0).res =
    (jl_apply_generic TS0 { Ext0 with typeOf := fun _ => 7 } 0 (fun _ => none)
      empty_cc [⟨[7], none, [], true, 2⟩] 0 [5] [] 0).res := by
  apply C2_thm
  · intro ix e h
    by_cases hx : ix = 0
    · simp only [hx, if_pos rfl] at h
      cases h
      simp
    · simp [hx] at h
  · intro ix e h
    by_cases hx : ix = 0
    · simp only [hx, if_pos rfl] at h
      cases h
      decide
    · simp [hx] at h
  · intro e₁ h₁ e₂ h₂ _ _
    simp at h₁ h₂
    rw [h₁, h₂]

/-- C2 counterexample: a stale inline-cache slot (its entry already
unlinked from the method table's cache, which now holds a different
specialization for the same signature) makes the fast path dispatch to
payload 1 while the slow path selects payload 2, so the claim's
unconditional fast/slow equivalence is false. -/
theorem C2_counterexample :
    (let ext : Ext := { Ext0 with typeOf := fun _ => 7 };
     (jl_apply_generic TS0 ext 0 (fun _ => none)
        ⟨fun k => if k = 0 then some ⟨[7], none, [], true, 1⟩ else none, fun _ => 0⟩
        [⟨[7], none, [], true, 2⟩] 0 [5] [] 0).res = some 1 ∧
     (jl_apply_generic TS0 ext 0 (fun _ => none)
        empty_cc [⟨[7], none, [], true, 2⟩] 0 [5] [] 0).res = some 2) :=
  ⟨rfl, rfl⟩

/-- C7.  Every entry ever installed into a slot of the process-wide
call-site inline cache satisfies `is_leafsig` with no `simplesig` and
empty `guardsigs`; on a slow-path hit with an eligible entry, the slot
chosen among the four candidate indices is selected by incrementing
`pick_which` at the first candidate index and taking it modulo four. -/
theorem C7_thm :
    (∀ (events : List (List Nat × CEntry)) (st : CCState),
      (∀ ix e, st.cc ix = some e → entry_eligible e = true) →
      ∀ ix e, (run_call_cache events st).cc ix = some e →
        entry_eligible e = true) ∧
    (∀ (st : CCState) (idxs : List Nat) (e : CEntry), entry_eligible e = true →
      ((call_cache_install st idxs e).cc
          (idxs.getD (((st.pick (idxs.getD 0 0) + 1) % 256) % 4) 0) = some e ∧
       (call_cache_install st idxs e).pick (idxs.getD 0 0) =
          (st.pick (idxs.getD 0 0) + 1) % 256)) := by
  constructor
  · intro events
    induction events with
    | nil => intro st h ix e he; exact h ix e he
    | cons ev rest ih =>
      intro st h ix e he
      rw [run_call_cache, List.foldl_cons] at he
      exact ih (call_cache_install st ev.1 ev.2)
        (call_cache_install_preserves st ev.1 ev.2 h) ix e he
  · intro st idxs e he
    rw [call_cache_install, if_pos he]
    exact ⟨by simp, by simp⟩

/-- C7 witness: one install event into the empty inline cache; the entry
lands in slot `idxs[1] = 6` (counter 0 incremented to 1, mod 4) and
every populated slot holds an eligible entry. -/
theorem C7_witness :
    (∀ ix e, (run_call_cache [([5, 6, 7, 8], ⟨[7], none, [], true, 1⟩)]
        empty_cc).cc ix = some e → entry_eligible e = true) ∧
    (call_cache_install empty_cc [5, 6, 7, 8] ⟨[7], none, [], true, 1⟩).cc 6 =
      some ⟨[7], none, [], true, 1⟩ := by
  constructor
  · exact C7_thm.1 _ empty_cc (fun ix e h => absurd h (by simp [empty_cc]))
  · have h := (C7_thm.2 empty_cc [5, 6, 7, 8] ⟨[7], none, [], true, 1⟩
      (by decide)).1
    simpa [empty_cc] using h

/-- C3.  For every method-table lookup by type that finds a Method whose
`ambig` list is non-empty, the lookup returns none exactly when some
method in the `ambig` list has a signature whose intersection with the
queried argument-type tuple is non-empty; when every such intersection
is empty, the recorded ambiguity does not prevent the lookup from
returning the specialization. -/
theorem C3_thm (ts : TS) (ext : Ext) (max_args : Nat) (entry : DefEntry)
    (env : List Ty) (mtcache : List CEntry) (ttParams : List Ty)
    (docache : Bool) (specs : List SpecEntry) (fresh : Nat)
    (l : List Ty) (hl : entry.ambig = some l) (_hne : l ≠ []) :
    ((jl_mt_assoc_by_type ts ext max_args (some (entry, env)) mtcache ttParams
        docache specs fresh).res = none ↔
      ∃ s ∈ l, ts.intersect s (ts.tuple_of ttParams) ≠ bottom) := by
  have hiff : jl_has_call_ambiguities ts (ts.tuple_of ttParams) entry.ambig = true ↔
      ∃ s ∈ l, ts.intersect s (ts.tuple_of ttParams) ≠ bottom := by
    simp [jl_has_call_ambiguities, hl]
  by_cases hamb : jl_has_call_ambiguities ts (ts.tuple_of ttParams) entry.ambig = true
  · simp only [jl_mt_assoc_by_type, hamb, if_true]
    exact iff_of_true (by simp) (hiff.mp hamb)
  · have hnex : ¬∃ s ∈ l, ts.intersect s (ts.tuple_of ttParams) ≠ bottom :=
      fun hx => hamb (hiff.mpr hx)
    cases docache <;> simp [jl_mt_assoc_by_type, hamb, hnex]

/-- C3 witness: a lookup that finds a method with one recorded ambiguity
whose signature intersects the queried tuple returns none. -/
theorem C3_witness :
    (jl_mt_assoc_by_type { TS0 with intersect := fun a _ => if a = 9 then 1 else 0 }
      Ext0 0 (some (⟨0, [], false, false, 0, true, false, 0, some [9]⟩, []))
      [] [] true [] 0).res = none :=
  (C3_thm { TS0 with intersect := fun a _ => if a = 9 then 1 else 0 }
    Ext0 0 ⟨0, [], false, false, 0, true, false, 0, some [9]⟩ [] [] [] true [] 0
    [9] rfl (by decide)).mpr ⟨9, by simp, by decide⟩

/-- C4.  Corrected claim: for every cache-entry build where the Method is
non-staged, its declared signature ends in an unbounded vararg slot, and
the concrete signature has more parameters than `mt.max_args`, the
signature the specialization is built under is truncated to exactly
`mt.max_args + 2` slots; if every parameter past the truncation point is
a subtype of the last kept parameter's type, the final slot becomes a
`Vararg` of that type unless that type is a nested `Type{Type{...}}`
(in which case the element type is widened to `Type`); otherwise the
final slot becomes the method's declared trailing vararg slot (the
`Vararg` type itself) with the static-parameter environment substituted;
and in either case guard-entry computation is triggered. -/
theorem C4_thm (ts : TS) (ext : Ext) (max_args : Nat) (cache : List CEntry)
    (typeParams ttParams : List Ty) (m : DefEntry) (sparams : List Ty)
    (specs : List SpecEntry) (fresh : Nat)
    (h1 : m.isstaged = false) (h2 : m.vaUnbound = true)
    (h3 : typeParams.length > max_args)
    (w : WidenAcc)
    (hw : w = widen_all ts m.isstaged m.called m.sig m.sigLastVararg
      typeParams ttParams)
    (lasttype : Ty) (hlast : lasttype = w.params.getD (max_args + 2 - 2) bottom)
    (stcond : Bool)
    (hst : stcond = ((List.range' (max_args + 2 - 1)
        (w.params.length - (max_args + 2 - 1))).all fun j =>
        ts.subtype (w.params.getD j bottom) lasttype))
    (r : CMResult)
    (hr : r = cache_method ts ext max_args cache typeParams ttParams m sparams
      specs fresh) :
    r.specTypeParams.length = max_args + 2 ∧
    r.needGuards = true ∧
    r.specTypeParams.take (max_args + 2 - 1) =
      ((List.range (max_args + 2 - 1)).map fun i => w.params.getD i bottom) ∧
    (stcond = true →
      (ts.is_type_type lasttype && ts.is_type_type (ts.tparam0 lasttype)) = false →
      r.specTypeParams.getLast? = some (ts.wrap_vararg lasttype)) ∧
    (stcond = false →
      r.specTypeParams.getLast? = some (if sparams.length > 0
        then ts.instantiate (m.sig.getD (m.sig.length - 1) bottom)
          (build_sparam_env ts m.tvars sparams)
        else m.sig.getD (m.sig.length - 1) bottom)) := by
  have hlen : w.params.length = typeParams.length := by
    rw [hw]; exact widen_all_params_length ts m.isstaged m.called m.sig
      m.sigLastVararg typeParams ttParams
  have hcond : (!m.isstaged && decide (w.params.length > max_args) && m.vaUnbound)
      = true := by
    rw [h1, h2, hlen]
    simp [h3]
  have hpre : ((List.range (max_args + 2 - 1)).map fun i =>
      w.params.getD i bottom).length = max_args + 2 - 1 := by simp
  by_cases hsub : ((List.range' (max_args + 2 - 1)
      (w.params.length - (max_args + 2 - 1))).all fun j =>
      ts.subtype (w.params.getD j bottom) lasttype) = true
  · have htr : vararg_truncate ts m.isstaged max_args m.sig m.vaUnbound m.tvars
        sparams w.params =
        some (((List.range (max_args + 2 - 1)).map fun i => w.params.getD i bottom)
          ++ [ts.wrap_vararg
              (if ts.is_type_type lasttype && ts.is_type_type (ts.tparam0 lasttype)
               then ts.type_type else lasttype)]) := by
      rw [vararg_truncate, if_pos hcond]
      dsimp only
      rw [← hlast, if_pos hsub]
    have hsp : r.specTypeParams =
        ((List.range (max_args + 2 - 1)).map fun i => w.params.getD i bottom)
          ++ [ts.wrap_vararg
              (if ts.is_type_type lasttype && ts.is_type_type (ts.tparam0 lasttype)
               then ts.type_type else lasttype)] := by
      rw [hr]
      simp only [cache_method, ← hw, htr]
      simp
    refine ⟨?_, ?_, ?_, ?_, ?_⟩
    · rw [hsp]; simp
    · rw [hr]; simp only [cache_method, ← hw, htr]; simp
    · rw [hsp, List.take_left' hpre]
    · intro _ hnn
      rw [hsp, List.getLast?_concat, hnn]
      simp
    · intro hfalse
      rw [hst] at hfalse
      rw [hfalse] at hsub
      simp at hsub
  · have htr : vararg_truncate ts m.isstaged max_args m.sig m.vaUnbound m.tvars
        sparams w.params =
        some (((List.range (max_args + 2 - 1)).map fun i => w.params.getD i bottom)
          ++ [if sparams.length > 0
              then ts.instantiate (m.sig.getD (m.sig.length - 1) bottom)
                (build_sparam_env ts m.tvars sparams)
              else m.sig.getD (m.sig.length - 1) bottom]) := by
      rw [vararg_truncate, if_pos hcond]
      dsimp only
      rw [← hlast, if_neg hsub]
    have hsp : r.specTypeParams =
        ((List.range (max_args + 2 - 1)).map fun i => w.params.getD i bottom)
          ++ [if sparams.length > 0
              then ts.instantiate (m.sig.getD (m.sig.length - 1) bottom)
                (build_sparam_env ts m.tvars sparams)
              else m.sig.getD (m.sig.length - 1) bottom] := by
      rw [hr]
      simp only [cache_method, ← hw, htr]
      simp
    refine ⟨?_, ?_, ?_, ?_, ?_⟩
    · rw [hsp]; simp
    · rw [hr]; simp only [cache_method, ← hw, htr]; simp
    · rw [hsp, List.take_left' hpre]
    · intro htrue _
      rw [hst] at htrue
      exact absurd htrue hsub
    · intro _
      rw [hsp, List.getLast?_concat]

/-- C4 witness: a non-staged unbounded-vararg build with four concrete
arguments and `max_args = 1` is truncated to three slots, the last being
the declared vararg slot (no static parameters to substitute). -/
theorem C4_witness :
    (cache_method TS0 Ext0 1 [] [50, 50, 50] [50, 50, 50]
      ⟨1, [60], false, true, 0, true, false, 0, none⟩ [] [] 0).specTypeParams.length
        = 3 ∧
    (cache_method TS0 Ext0 1 [] [50, 50, 50] [50, 50, 50]
      ⟨1, [60], false, true, 0, true, false, 0, none⟩ [] [] 0).needGuards = true ∧
    (cache_method TS0 Ext0 1 [] [50, 50, 50] [50, 50, 50]
      ⟨1, [60], false, true, 0, true, false, 0, none⟩ [] [] 0).specTypeParams.getLast?
        = some 60 := by
  have h := C4_thm TS0 Ext0 1 [] [50, 50, 50] [50, 50, 50]
    ⟨1, [60], false, true, 0, true, false, 0, none⟩ [] [] 0 rfl rfl (by decide)
    _ rfl _ rfl _ rfl _ rfl
  refine ⟨h.1, h.2.1, ?_⟩
  have he := h.2.2.2.2 (by decide)
  simpa using he

/-- C4 counterexample: with all past-truncation parameters subtypes of
the last kept parameter's type 50, the final slot is
`Vararg{Type}` (code `wrap_vararg type_type`), not `Vararg{50}` as the
claim states, because 50 is a nested `Type{Type{...}}`; and when the
subtype test fails, the final slot is the instantiated declared vararg
slot itself (`Vararg{T}`), not the declared vararg element type. -/
theorem C4_counterexample :
    (let ts : TS := { TS0 with
        is_type_type := fun t => decide (t = 50) || decide (t = 51),
        tparam0 := fun t => if t = 50 then 51 else if t = 51 then 52
          else if t = 60 then 61 else 0,
        subtype := fun _ _ => true,
        has_typevars := fun t => decide (t = 61),
        wrap_vararg := fun t => 1000 + t,
        instantiate := fun t _ => t + 7 };
     let m : DefEntry := ⟨1, [60], true, true, 0, true, false, 0, none⟩;
     (ts.subtype 50 50 = true ∧
      (cache_method ts Ext0 1 [] [50, 50, 50, 50] [50, 50, 50, 50] m [] []
        0).specTypeParams = [50, 50, ts.wrap_vararg ts.type_type] ∧
      ts.wrap_vararg ts.type_type ≠ ts.wrap_vararg 50) ∧
     (let ts2 : TS := { ts with subtype := fun _ _ => false };
      (cache_method ts2 Ext0 1 [] [50, 50, 50, 50] [50, 50, 50, 50] m [70] []
        0).specTypeParams = [50, 50, ts2.instantiate 60 (build_sparam_env ts2 0 [70])] ∧
      ts2.instantiate 60 (build_sparam_env ts2 0 [70]) ≠
        ts2.instantiate (ts2.tparam0 60) (build_sparam_env ts2 0 [70]))) := by
  refine ⟨⟨rfl, ?_, by decide⟩, ⟨?_, by decide⟩⟩ <;> rfl

/-- C5.  Corrected claim: the builder abandons the widened signature
(caching under the original concrete signature) when `ml_matches` bails
out, or when some match record's environment leaves a type variable
unmatched, or when the count of competing definitions already exceeds 32
as a further match record is examined; because that count is tested
before each record is processed, a scan may finish with 33 competing
definitions and still attach guardsigs; otherwise the competing matches'
intersection signatures become the `guardsigs` of the inserted entry,
and under `cache_with_orig` the entry is keyed by the original concrete
signature. -/
theorem C5_thm :
    (∀ (ts : TS) (defId : Nat), guards_decision ts defId none = (true, [])) ∧
    (∀ (ts : TS) (defId : Nat) (ms : List MatchRec),
      ((guards_decision ts defId (some ms)).1 = true ↔
        ∃ i, i < ms.length ∧
          ((ms.getD i ⟨0, [], 0⟩).env.any ts.is_typevar = true ∨
            competing_count defId (ms.take i) > MAX_UNSPECIALIZED_CONFLICTS))) ∧
    (∀ (ts : TS) (defId : Nat) (ms : List MatchRec),
      (guards_decision ts defId (some ms)).1 = false →
      (guards_decision ts defId (some ms)).2 =
        if competing_count defId ms > 0 then guard_sigs defId ms else []) ∧
    (∀ (ts : TS) (ext : Ext) (max_args : Nat) (cache : List CEntry)
      (typeParams ttParams : List Ty) (m : DefEntry) (sparams : List Ty)
      (specs : List SpecEntry) (fresh : Nat),
      (cache_method ts ext max_args cache typeParams ttParams m sparams specs
        fresh).cacheWithOrig = true →
      (cache_method ts ext max_args cache typeParams ttParams m sparams specs
        fresh).key = ttParams) := by
  have hfst : ∀ (ts : TS) (defId : Nat) (ms : List MatchRec),
      (guards_decision ts defId (some ms)).1 = (guard_count_loop ts defId ms 0).1 := by
    intro ts defId ms
    rw [guards_decision]
    rcases hpp : guard_count_loop ts defId ms 0 with ⟨b, n⟩
    cases b
    · by_cases hn : 0 < n <;> simp [hn]
    · simp
  refine ⟨fun _ _ => rfl, ?_, ?_, ?_⟩
  · intro ts defId ms
    rw [hfst, guard_count_loop_true_iff]
    simp
  · intro ts defId ms h
    rw [hfst] at h
    rw [guards_decision]
    rcases hpp : guard_count_loop ts defId ms 0 with ⟨b, n⟩
    rw [hpp] at h
    cases h
    have hn : n = competing_count defId ms := by
      have := guard_count_loop_false ts defId ms 0 (by rw [hpp])
      rw [hpp] at this
      simpa using this
    subst hn
    by_cases hc : competing_count defId ms > 0 <;> simp [hc]
  · intro ts ext max_args cache typeParams ttParams m sparams specs fresh h
    simp only [cache_method] at h ⊢
    rw [h]
    by_cases he : ttParams = typeParams <;> simp [he]

/-- C5 witness: one competing match with no unmatched type variables
attaches its intersection signature as the lone guardsig. -/
theorem C5_witness :
    (guards_decision TS0 1 (some [⟨9, [], 2⟩])).2 = [9] := by
  have h := C5_thm.2.2.1 TS0 1 [⟨9, [], 2⟩] (by decide)
  rw [h]
  decide

/-- C5 counterexample: a match list with exactly 33 competing
definitions (each with an empty environment) exceeds the threshold 32,
yet the builder does not abandon widening: it attaches all 33 guardsigs,
because the bail-out test runs before each record and no record follows
the last competing one. -/
theorem C5_counterexample :
    competing_count 1 (List.replicate 33 ⟨9, [], 2⟩) = 33 ∧
    33 > MAX_UNSPECIALIZED_CONFLICTS ∧
    guards_decision TS0 1 (some (List.replicate 33 ⟨9, [], 2⟩)) =
      (false, List.replicate 33 9) := by
  decide

/-- C6.  For every `get_or_create` on the per-method specialization
store: if an entry with a type-equal signature already exists and its
payload already has code attached, that existing payload is returned and
the store is unchanged; otherwise a fresh specialization is constructed,
inserted into the method's specializations map, and returned. -/
theorem C6_thm (tt_eq : Ty → Ty → Bool) (isLinfo hasCode : Nat → Bool)
    (specs : List SpecEntry) (type : Ty) (fresh : Nat) :
    (∀ sf, spec_assoc tt_eq specs type = some sf → isLinfo sf.linfo = true →
      hasCode sf.linfo = true →
      jl_specializations_get_linfo tt_eq isLinfo hasCode specs type fresh =
        (sf.linfo, specs, fresh)) ∧
    ((spec_assoc tt_eq specs type = none ∨
      ∃ sf, spec_assoc tt_eq specs type = some sf ∧
        (isLinfo sf.linfo && hasCode sf.linfo) = false) →
      ((jl_specializations_get_linfo tt_eq isLinfo hasCode specs type fresh).1 =
        fresh ∧
       (⟨type, fresh⟩ : SpecEntry) ∈
        (jl_specializations_get_linfo tt_eq isLinfo hasCode specs type fresh).2.1)) := by
  constructor
  · intro sf hsf h1 h2
    simp [jl_specializations_get_linfo, hsf, h1, h2]
  · rintro (hnone | ⟨sf, hsf, hfc⟩)
    · simp [jl_specializations_get_linfo, hnone, mem_spec_insert]
    · simp [jl_specializations_get_linfo, hsf, hfc, mem_spec_insert]

/-- C6 witness: a hit on an entry with code returns it unchanged; a miss
constructs and inserts a fresh specialization. -/
theorem C6_witness :
    (jl_specializations_get_linfo (fun a b => decide (a = b)) (fun _ => true)
      (fun _ => true) [⟨3, 10⟩] 3 0) = (10, [⟨3, 10⟩], 0) ∧
    ((⟨4, 0⟩ : SpecEntry) ∈
      (jl_specializations_get_linfo (fun a b => decide (a = b)) (fun _ => true)
        (fun _ => true) [⟨3, 10⟩] 4 0).2.1) :=
  ⟨(C6_thm (fun a b => decide (a = b)) (fun _ => true) (fun _ => true)
      [⟨3, 10⟩] 3 0).1 ⟨3, 10⟩ rfl rfl rfl,
   ((C6_thm (fun a b => decide (a = b)) (fun _ => true) (fun _ => true)
      [⟨3, 10⟩] 4 0).2 (Or.inl rfl)).2⟩

/-- C8.  For every successful invoke()-pathway dispatch, the
specialization built for the matched Method is cached only in that
Method's private `invokes` typemap: the method table's shared dispatch
cache is unchanged, and on an invokes-cache miss the private typemap
gains exactly the new entry, whose payload is dispatched. -/
theorem C8_thm (ts : TS) (ext : Ext) (max_args : Nat)
    (entryLookup : Option DefEntry) (envIn : List Ty) (st : InvokeState)
    (args : List Nat) :
    ((jl_gf_invoke ts ext max_args entryLookup envIn st args).2.mtcache =
      st.mtcache) ∧
    (∀ entry, entryLookup = some entry →
      (match st.invokes with
       | some inv => jl_typemap_assoc_exact ext inv args
       | none => none) = none →
      ∃ e : CEntry,
        (jl_gf_invoke ts ext max_args entryLookup envIn st args).2.invokes =
          some (e :: st.invokes.getD []) ∧
        (jl_gf_invoke ts ext max_args entryLookup envIn st args).1 =
          some e.payload) := by
  constructor
  · cases hel : entryLookup with
    | none => simp [jl_gf_invoke]
    | some entry =>
      simp only [jl_gf_invoke]
      rcases htm : (match st.invokes with
        | some inv => jl_typemap_assoc_exact ext inv args
        | none => none) with _ | e <;> simp [htm]
  · intro entry hel htm
    subst hel
    simp only [jl_gf_invoke, htm]
    exact ⟨_, rfl, rfl⟩

/-- C8 witness: an invoke dispatch through a fresh method (empty private
invokes map) leaves the shared cache untouched and adds one entry to the
private map. -/
theorem C8_witness :
    ((jl_gf_invoke TS0 Ext0 0 (some ⟨1, [], false, false, 0, true, false, 0, none⟩)
      [] ⟨[⟨[7], none, [], true, 9⟩], none, [], 0⟩ []).2.mtcache =
      [⟨[7], none, [], true, 9⟩]) ∧
    (∃ e : CEntry,
      (jl_gf_invoke TS0 Ext0 0 (some ⟨1, [], false, false, 0, true, false, 0, none⟩)
        [] ⟨[⟨[7], none, [], true, 9⟩], none, [], 0⟩ []).2.invokes =
        some [e] ∧
      (jl_gf_invoke TS0 Ext0 0 (some ⟨1, [], false, false, 0, true, false, 0, none⟩)
        [] ⟨[⟨[7], none, [], true, 9⟩], none, [], 0⟩ []).1 = some e.payload) :=
  ⟨(C8_thm TS0 Ext0 0 (some ⟨1, [], false, false, 0, true, false, 0, none⟩)
      [] ⟨[⟨[7], none, [], true, 9⟩], none, [], 0⟩ []).1,
   (C8_thm TS0 Ext0 0 (some ⟨1, [], false, false, 0, true, false, 0, none⟩)
      [] ⟨[⟨[7], none, [], true, 9⟩], none, [], 0⟩ []).2
     ⟨1, [], false, false, 0, true, false, 0, none⟩ rfl rfl⟩

mutual

theorem tmap_entries_invalidate (ts : TS) (type : Ty) (shadowed : List Nat) :
    ∀ t : TMapNode,
      tmap_entries (invalidate_conflicting ts type shadowed t) =
        (tmap_entries t).filter fun e =>
          !(shadowed.contains e.defId && decide (ts.intersect type e.sig ≠ bottom))
  | .linear l => by
    simp [invalidate_conflicting, tmap_entries, invalidate_entries]
  | .level a t lin => by
    simp only [invalidate_conflicting, tmap_entries]
    rw [tmap_forest_entries_invalidate ts type shadowed a,
      tmap_forest_entries_invalidate ts type shadowed t]
    simp [List.filter_append, invalidate_entries]

theorem tmap_forest_entries_invalidate (ts : TS) (type : Ty) (shadowed : List Nat) :
    ∀ l : List TMapNode,
      tmap_forest_entries (invalidate_forest ts type shadowed l) =
        (tmap_forest_entries l).filter fun e =>
          !(shadowed.contains e.defId && decide (ts.intersect type e.sig ≠ bottom))
  | [] => rfl
  | x :: xs => by
    simp only [invalidate_forest, tmap_forest_entries]
    rw [tmap_entries_invalidate ts type shadowed x,
      tmap_forest_entries_invalidate ts type shadowed xs]
    simp [List.filter_append]

end

/-- C9.  For every method insertion that displaces a prior Method with a
type-equal signature, the pairwise ambiguity scan is not run: the new
method inherits the displaced method's `ambig` list and no other
method's `ambig` store changes; and the shadowed set is exactly the
displaced singleton, so the cache entries unlinked are exactly the
specializations whose defining Method is the displaced one and whose
signature intersects the new signature. -/
theorem C9_thm (ts : TS) (defs_assoc : Ty → Bool) (defs : List MEntry)
    (st : MTState) (method : MEntry) (np : Nat) (vaUnbound : Bool)
    (oldId : Nat) :
    ((jl_method_table_insert ts defs_assoc defs st method np vaUnbound
        (some oldId)).ambig method.mid = st.ambig oldId) ∧
    (∀ k, k ≠ method.mid →
      (jl_method_table_insert ts defs_assoc defs st method np vaUnbound
        (some oldId)).ambig k = st.ambig k) ∧
    (tmap_entries (jl_method_table_insert ts defs_assoc defs st method np
        vaUnbound (some oldId)).cache =
      (tmap_entries st.cache).filter fun e =>
        !(decide (e.defId = oldId) &&
          decide (ts.intersect method.sig e.sig ≠ bottom))) := by
  refine ⟨?_, ?_, ?_⟩
  · simp [jl_method_table_insert]
  · intro k hk
    simp [jl_method_table_insert, hk]
  · simp only [jl_method_table_insert]
    rw [tmap_entries_invalidate]
    congr 1
    funext e
    by_cases h : e.defId = oldId <;> simp [h, List.contains]

/-- C9 witness: displacing method 3 with new method 2 (signature 10)
propagates method 3's ambiguity list to method 2, leaves method 7's list
alone, and unlinks exactly the cache entry whose defining method is 3. -/
theorem C9_witness :
    ((jl_method_table_insert { TS0 with intersect := fun _ _ => 1 }
        (fun _ => false) [] ⟨fun k => if k = 3 then some [5] else none,
          TMapNode.linear [⟨8, 3⟩, ⟨9, 4⟩], 0⟩ ⟨2, 10⟩ 1 false
        (some 3)).ambig 2 = some [5]) ∧
    ((jl_method_table_insert { TS0 with intersect := fun _ _ => 1 }
        (fun _ => false) [] ⟨fun k => if k = 3 then some [5] else none,
          TMapNode.linear [⟨8, 3⟩, ⟨9, 4⟩], 0⟩ ⟨2, 10⟩ 1 false
        (some 3)).ambig 7 = none) ∧
    (tmap_entries (jl_method_table_insert { TS0 with intersect := fun _ _ => 1 }
        (fun _ => false) [] ⟨fun k => if k = 3 then some [5] else none,
          TMapNode.linear [⟨8, 3⟩, ⟨9, 4⟩], 0⟩ ⟨2, 10⟩ 1 false
        (some 3)).cache = [⟨9, 4⟩]) := by
  have h := C9_thm { TS0 with intersect := fun _ _ => 1 } (fun _ => false) []
    ⟨fun k => if k = 3 then some [5] else none,
      TMapNode.linear [⟨8, 3⟩, ⟨9, 4⟩], 0⟩ ⟨2, 10⟩ 1 false 3
  refine ⟨?_, ?_, ?_⟩
  · rw [h.1]
    rfl
  · rw [h.2.1 7 (by decide)]
    rfl
  · rw [h.2.2]
    rfl

/-- C10.  For every lookup by type that misses the dispatch cache: when
the queried tuple is a leaf type, the built specialization is recorded
in the method table's shared cache even though the caller passed
`cache = false`; only non-leaf queries with `cache = false` leave the
dispatch cache unchanged. -/
theorem C10_thm (ts : TS) (ext : Ext) (max_args : Nat)
    (entry : DefEntry) (env : List Ty) (mtcache : List CEntry)
    (typesParams : List Ty) (specs : List SpecEntry) (fresh : Nat) :
    ((ts.is_leaf_type (ts.tuple_of typesParams) = true →
      jl_has_call_ambiguities ts (ts.tuple_of typesParams) entry.ambig = false →
      ∃ e : CEntry,
        (jl_method_lookup_by_type ts ext max_args none (some (entry, env))
          mtcache typesParams false specs fresh).mtcache = e :: mtcache ∧
        (jl_method_lookup_by_type ts ext max_args none (some (entry, env))
          mtcache typesParams false specs fresh).res = some e.payload) ∧
     (∀ dl : Option (DefEntry × List Ty),
       ts.is_leaf_type (ts.tuple_of typesParams) = false →
       (jl_method_lookup_by_type ts ext max_args none dl mtcache typesParams
         false specs fresh).mtcache = mtcache)) := by
  constructor
  · intro hleaf hamb
    simp only [jl_method_lookup_by_type, hleaf, if_true]
    simp only [jl_mt_assoc_by_type, hamb]
    simp only [Bool.false_eq_true, if_false, Bool.not_true, if_true]
    exact ⟨_, rfl, rfl⟩
  · intro dl hleaf
    simp only [jl_method_lookup_by_type, hleaf]
    rcases dl with _ | ⟨d, e⟩
    · simp [jl_mt_assoc_by_type]
    · by_cases hamb : jl_has_call_ambiguities ts (ts.tuple_of typesParams)
        d.ambig = true <;>
      simp [jl_mt_assoc_by_type, hamb]

/-- C10 witness: a leaf-type query with `cache = false` still prepends
the built entry to the shared dispatch cache; a non-leaf query with
`cache = false` leaves it unchanged. -/
theorem C10_witness :
    (∃ e : CEntry,
      (jl_method_lookup_by_type { TS0 with is_leaf_type := fun _ => true } Ext0 0
        none (some (⟨1, [], false, false, 0, true, false, 0, none⟩, []))
        [] [] false [] 0).mtcache = e :: [] ∧
      (jl_method_lookup_by_type { TS0 with is_leaf_type := fun _ => true } Ext0 0
        none (some (⟨1, [], false, false, 0, true, false, 0, none⟩, []))
        [] [] false [] 0).res = some e.payload) ∧
    ((jl_method_lookup_by_type TS0 Ext0 0 none none [⟨[7], none, [], true, 9⟩]
        [] false [] 0).mtcache = [⟨[7], none, [], true, 9⟩]) :=
  ⟨(C10_thm { TS0 with is_leaf_type := fun _ => true } Ext0 0
      ⟨1, [], false, false, 0, true, false, 0, none⟩ [] [] [] [] 0).1 rfl rfl,
   (C10_thm TS0 Ext0 0 ⟨1, [], false, false, 0, true, false, 0, none⟩ []
      [⟨[7], none, [], true, 9⟩] [] [] 0).2 none rfl⟩

end GF
